import Mathlib

/-!
# Eigen2Mat: the marshalling layer and the session of `Matlab.h`

A shallow embedding of `src/include/Eigen2Mat/Matlab.h`.

* Dense matrices and vectors (the Eigen types behind `EigenTypes.h`) are records holding
  their shape and their contiguous coefficient storage; the storage order is a parameter.
* The engine-side array (`matlab::data::Array`) is a record of a dimension list and a flat
  column-major buffer.
* Reads that the C++ code performs past the end of a container, invalid array indices and
  a call through a null engine handle are explicit faults in `Except Fault`.
* `unsigned int` is 32 bits wide: every conversion to it is an explicit `% 2 ^ 32`.
-/

namespace Matlab

/-! ## Faults -/

/-- The ways in which a call of the embedded code can go wrong instead of returning. -/
inductive Fault
  /-- `a.getDimensions()[k]` with `k` past the end of the dimension list. -/
  | dimsOutOfRange
  /-- An element access `a[i]` or `a[i][j]` that the array rejects. -/
  | invalidIndex
  /-- A member call through a null `matlabPtr_`. -/
  | nullHandle
  deriving DecidableEq, Repr

deriving instance DecidableEq for Except

/-- Conversion of a size to `unsigned int` (32 bits). -/
def castUInt (n : Nat) : Nat := n % 2 ^ 32

/-! ## The dense matrix library -/

/-- Native storage order of the dense matrix type. -/
inductive StorageOrder
  | ColMajor
  | RowMajor
  deriving DecidableEq, Repr

/-- Modelled from the spec: the dense matrix type `Matrix` of `EigenTypes.h`, consumed only
through `rows()`, `cols()`, element access and the contiguous storage behind `data()`. -/
structure Matrix (α : Type) where
  rows : Nat
  cols : Nat
  data : List α
  deriving DecidableEq, Repr

/-- Modelled from the spec: the dense column vector type `Vector` of `EigenTypes.h`, given
by the contiguous storage behind `data()`; `rows()` is its length and `cols()` is 1. -/
structure Vector (α : Type) where
  data : List α
  deriving DecidableEq, Repr

/-- The storage of a matrix holds exactly `rows * cols` coefficients. -/
def Matrix.WellFormed {α : Type} (m : Matrix α) : Prop :=
  m.data.length = m.rows * m.cols

/-- Storage position of coefficient `(i, j)` in the given storage order. -/
def Matrix.index {α : Type} (o : StorageOrder) (m : Matrix α) (i j : Nat) : Nat :=
  match o with
  | StorageOrder.ColMajor => i + j * m.rows
  | StorageOrder.RowMajor => i * m.cols + j

/-- Coefficient read `m(i, j)`. -/
def Matrix.coeff {α : Type} (o : StorageOrder) (m : Matrix α) (i j : Nat) : Option α :=
  if i < m.rows ∧ j < m.cols then m.data[m.index o i j]? else none

/-- Coefficient write `m(i, j) = x`. -/
def Matrix.set {α : Type} (o : StorageOrder) (m : Matrix α) (i j : Nat) (x : α) : Matrix α :=
  ⟨m.rows, m.cols, m.data.set (m.index o i j) x⟩

/-- The default-constructed matrix `Matrix ret;` of shape (0, 0). -/
def Matrix.empty {α : Type} : Matrix α := ⟨0, 0, []⟩

/-- The call `m.resize(rows, cols)`: new storage whose content is unspecified (here the
default element). -/
def Matrix.resize {α : Type} [Inhabited α] (_m : Matrix α) (rows cols : Nat) : Matrix α :=
  ⟨rows, cols, List.replicate (rows * cols) default⟩

/-- The number of rows of a column vector. -/
def Vector.rows {α : Type} (v : Vector α) : Nat := v.data.length

/-- The number of columns of a column vector. -/
def Vector.cols {α : Type} (_v : Vector α) : Nat := 1

/-- The default-constructed vector `Vector ret;` of length 0. -/
def Vector.empty {α : Type} : Vector α := ⟨[]⟩

/-- The call `v.resize(size)`. -/
def Vector.resize {α : Type} [Inhabited α] (_v : Vector α) (size : Nat) : Vector α :=
  ⟨List.replicate size default⟩

/-- Coefficient write `v(i) = x`. -/
def Vector.set {α : Type} (v : Vector α) (i : Nat) (x : α) : Vector α :=
  ⟨v.data.set i x⟩

/-! ## The engine-side array -/

/-- Modelled from the spec: the engine array type `matlab::data::Array` is not part of the
repository; it is a dimension list together with a flat buffer of elements in column-major
order. -/
structure MArray (α : Type) where
  dims : List Nat
  buf : List α
  deriving DecidableEq, Repr

/-- The buffer of an array holds as many elements as the product of its dimensions. -/
def MArray.WellFormed {α : Type} (a : MArray α) : Prop :=
  a.buf.length = a.dims.prod

/-- The default-constructed array `matlab::data::Array()`: empty, of shape 0 x 0. -/
def MArray.empty {α : Type} : MArray α := ⟨[0, 0], []⟩

instance {α : Type} : Inhabited (MArray α) := ⟨MArray.empty⟩

/-- The call `a.getNumberOfElements()`. -/
def MArray.getNumberOfElements {α : Type} (a : MArray α) : Nat := a.dims.prod

/-- The read `a.getDimensions()[k]` of a `std::vector`: past the end it is a fault. -/
def MArray.getDim {α : Type} (a : MArray α) (k : Nat) : Except Fault Nat :=
  match a.dims[k]? with
  | some d => Except.ok d
  | none => Except.error Fault.dimsOutOfRange

/-- Modelled from the spec: the single-index element read `a[i]`, buffer position `i`. -/
def MArray.at1 {α : Type} (a : MArray α) (i : Nat) : Except Fault α :=
  match a.buf[i]? with
  | some x => Except.ok x
  | none => Except.error Fault.invalidIndex

/-- Modelled from the spec: the two-index element read `a[i][j]` of a two-dimensional
array, buffer position `i + j * rows` (column-major). -/
def MArray.at2 {α : Type} (a : MArray α) (i j : Nat) : Except Fault α :=
  match a.dims with
  | [r, c] =>
    if i < r ∧ j < c then
      match a.buf[i + j * r]? with
      | some x => Except.ok x
      | none => Except.error Fault.invalidIndex
    else Except.error Fault.invalidIndex
  | _ => Except.error Fault.invalidIndex

/-- Modelled from the spec: `ArrayFactory::createArray(dims, begin, end)`, an array of the
requested dimensions that receives the elements of the range in column-major order. -/
def createArray {α : Type} [Inhabited α] (dims : List Nat) (range : List α) : MArray α :=
  ⟨dims, range.take dims.prod ++ List.replicate (dims.prod - range.length) default⟩

/-! ## Encoding: `toMatlab` -/

/-- The template `toMatlab(const T& t, T*)` on a dense object given by `rows()`, `cols()`
and the range `data() .. data() + size()`. -/
def toMatlab {α : Type} [Inhabited α] (rows cols : Nat) (data : List α) : MArray α :=
  createArray [castUInt rows, castUInt cols] data

/-- Instance of `toMatlab(const T& t, T*)` at `T = Matrix`. -/
def toMatlabMatrix {α : Type} [Inhabited α] (t : Matrix α) : MArray α :=
  toMatlab t.rows t.cols t.data

/-- Instance of `toMatlab(const T& t, T*)` at `T = Vector`. -/
def toMatlabVector {α : Type} [Inhabited α] (t : Vector α) : MArray α :=
  toMatlab t.rows t.cols t.data

/-- The batch form `toMatlab(const std::vector<T>& vt, std::vector<T>*)`: one `push_back`
per element, in order. -/
def toMatlabBatch {α T : Type} (enc : T → MArray α) (vt : List T) : List (MArray α) :=
  vt.foldl (fun ret t => ret ++ [enc t]) []

/-! ## Decoding: `toEigen` -/

/-- Inner loop of the matrix decoder: `for (j = 0; j < cols; ++j) ret(i, j) = a[i][j];`. -/
def fillRow {α : Type} (o : StorageOrder) (a : MArray α) (cols i : Nat) (ret : Matrix α) :
    Except Fault (Matrix α) :=
  (List.range cols).foldlM
    (fun ret j =>
      match a.at2 i j with
      | Except.ok x => Except.ok (ret.set o i j x)
      | Except.error e => Except.error e)
    ret

/-- The overload `toEigen(const matlab::data::Array& a, Matrix*)`. -/
def toEigenMatrix {α : Type} [Inhabited α] (o : StorageOrder) (a : MArray α) :
    Except Fault (Matrix α) :=
  let dims := a.dims
  match a.getDim 0 with
  | Except.error e => Except.error e
  | Except.ok d0 =>
    let rows := castUInt d0
    match a.getDim 1 with
    | Except.error e => Except.error e
    | Except.ok d1 =>
      let cols := castUInt d1
      let ret : Matrix α := Matrix.empty
      if dims.length != 2 || rows == 0 || cols == 0 then
        Except.ok ret
      else
        (List.range rows).foldlM (fun ret i => fillRow o a cols i ret) (ret.resize rows cols)

/-- The overload `toEigen(const matlab::data::Array& a, Vector*)`. -/
def toEigenVector {α : Type} [Inhabited α] (a : MArray α) : Except Fault (Vector α) :=
  let dims := a.dims
  let size := castUInt a.getNumberOfElements
  match a.getDim 0 with
  | Except.error e => Except.error e
  | Except.ok d0 =>
    let rows := castUInt d0
    match a.getDim 1 with
    | Except.error e => Except.error e
    | Except.ok d1 =>
      let cols := castUInt d1
      let minDim := min rows cols
      let maxDim := min rows cols
      let ret : Vector α := Vector.empty
      if dims.length != 2 || minDim != 1 || maxDim == 0 then
        Except.ok ret
      else
        (List.range size).foldlM
          (fun ret i =>
            match a.at1 i with
            | Except.ok x => Except.ok (ret.set i x)
            | Except.error e => Except.error e)
          (ret.resize size)

/-- The overload `toEigen(const matlab::data::Array& a, ScalarType*)`; `quiet_NaN` is the
not-a-number value of the scalar type. -/
def toEigenScalar {α : Type} (quiet_NaN : α) (a : MArray α) : Except Fault α :=
  if a.dims.length > 2 then Except.ok quiet_NaN
  else
    match a.getDim 0 with
    | Except.error e => Except.error e
    | Except.ok d0 =>
      if !(d0 == 1) then Except.ok quiet_NaN
      else a.at1 0

/-- The fallback template `toEigen(const matlab::data::Array& a, T*)`, which returns `T()`. -/
def toEigenDefault {α : Type} (T : Type) [Inhabited T] (_a : MArray α) : T := default

/-- The batch form `toEigen(const std::vector<matlab::data::Array>& va, std::vector<T>*)`.
Each element is decoded by the call `toEigen(a, static_cast<matlab::data::Array*>(nullptr))`,
which selects the fallback template at `T = matlab::data::Array`; `conv` is the conversion
from the array it returns to `T` that `push_back` needs. -/
def toEigenBatch {α T : Type} (conv : MArray α → T) (va : List (MArray α)) : List T :=
  va.foldl (fun ret a => ret ++ [conv (toEigenDefault (MArray α) a)]) []

/-! ## The session -/

/-- The engine client behind `matlabPtr_`: its `eval` either throws (the text of the
exception) or fills the output and the error buffer. -/
structure MATLABEngine where
  eval : String → Except String (String × String)

/-- The class `Session`: its only member is the engine handle, null when absent. -/
structure Session where
  matlabPtr_ : Option MATLABEngine

/-- The constructors of `Session`: the handle is assigned when `connectMATLAB` returns and
left null when it throws (the exception is caught and logged). -/
def Session.connect (r : Except String MATLABEngine) : Session :=
  match r with
  | Except.ok engine => ⟨some engine⟩
  | Except.error _ => ⟨none⟩

/-- What the caller of `eval` observes afterwards: the two strings passed by reference and
the lines written to `std::cerr`. -/
structure EvalResult where
  output : String
  error : String
  cerr : List String
  deriving DecidableEq, Repr

/-- The method `Session::eval(statement, output, error)`; `output` and `error` are the
contents of the caller's strings before the call. -/
def Session.eval (s : Session) (statement : String) (output error : String) :
    Except Fault EvalResult :=
  match s.matlabPtr_ with
  | none => Except.error Fault.nullHandle
  | some engine =>
    match engine.eval statement with
    | Except.ok (out, err) => Except.ok ⟨out, err, []⟩
    | Except.error what => Except.ok ⟨output, error, ["Matlab syntax error.", what]⟩

/-- The method `Session::eval(statement)`, with local `output` and `error` strings. -/
def Session.eval1 (s : Session) (statement : String) : Except Fault EvalResult :=
  s.eval statement "" ""

/-- The statement assembled by `Session::save(file)`. -/
def saveStatement1 (file : String) : String :=
  "save('" ++ file ++ "')"

/-- The statement assembled by `Session::save(file, variables)`. -/
def saveStatement (file : String) (vars : List String) : String :=
  let varStr := vars.foldl (fun varStr v => varStr ++ (", '" ++ v ++ "'")) ""
  "save('" ++ file ++ "'" ++ varStr ++ ")"

/-- The method `Session::save(file)`. -/
def Session.save1 (s : Session) (file : String) : Except Fault EvalResult :=
  s.eval1 (saveStatement1 file)

/-- The method `Session::save(file, variables)`. -/
def Session.save (s : Session) (file : String) (vars : List String) :
    Except Fault EvalResult :=
  s.eval1 (saveStatement file vars)

/-- The statement of the specification, `save('f', 'v1', ..., 'vn')`: the file name and the
variable names, each between single quotes, separated by a comma and a blank. -/
def specSaveStatement (file : String) (vars : List String) : String :=
  "save(" ++ ", ".intercalate ((file :: vars).map (fun name => "'" ++ name ++ "'")) ++ ")"

/-! ## The properties under study -/

instance {α : Type} (m : Matrix α) : Decidable m.WellFormed :=
  inferInstanceAs (Decidable (m.data.length = m.rows * m.cols))

instance {α : Type} (a : MArray α) : Decidable a.WellFormed :=
  inferInstanceAs (Decidable (a.buf.length = a.dims.prod))

/-- Round trip of a matrix whose type has storage order `o`: decoding the encoded matrix
returns a matrix of the same shape whose coefficient `(i, j)` is that of `M`. -/
def MatrixRoundTrips {α : Type} [Inhabited α] (o : StorageOrder) (M : Matrix α) : Prop :=
  ∃ ret, toEigenMatrix o (toMatlabMatrix M) = Except.ok ret ∧
    ret.rows = M.rows ∧ ret.cols = M.cols ∧
    ∀ i j, i < M.rows → j < M.cols →
      ∃ x, M.coeff o i j = some x ∧ ret.coeff o i j = some x

/-- The encoded matrix has dimension list `[rows, cols]` and its buffer position
`i + j * rows` holds coefficient `(i, j)` of `M`, read in storage order `o`. -/
def EncodesColumnMajor {α : Type} [Inhabited α] (o : StorageOrder) (M : Matrix α) : Prop :=
  (toMatlabMatrix M).dims = [M.rows, M.cols] ∧
  ∀ i j, i < M.rows → j < M.cols →
    ∃ x, M.coeff o i j = some x ∧ (toMatlabMatrix M).buf[i + j * M.rows]? = some x

/-- The encoded vector has dimension list `[n, 1]` and the elements of `v` in source order,
and decoding it returns `v`. -/
def VectorRoundTrips {α : Type} [Inhabited α] (v : Vector α) : Prop :=
  toMatlabVector v = ⟨[v.data.length, 1], v.data⟩ ∧
  toEigenVector (toMatlabVector v) = Except.ok v

/-- A dimension list with exactly two entries, the smaller equal to 1 and neither 0. -/
def isVectorShape : List Nat → Bool
  | [d0, d1] => min d0 d1 == 1 && d0 != 0 && d1 != 0
  | _ => false

/-- The vector decoder returns all elements of `a` in buffer order exactly when `a` has the
shape of a vector, and the empty vector otherwise. -/
def VectorDecodeSpec {α : Type} [Inhabited α] (a : MArray α) : Prop :=
  toEigenVector a = Except.ok (if isVectorShape a.dims then ⟨a.buf⟩ else Vector.empty)

instance {α : Type} [Inhabited α] [DecidableEq α] (a : MArray α) :
    Decidable (VectorDecodeSpec a) :=
  inferInstanceAs (Decidable (toEigenVector a = _))

/-- When the engine call faults, `eval` returns with both strings empty. -/
def EvalFaultClears (engine : MATLABEngine) (statement output error : String) : Prop :=
  (∃ what, engine.eval statement = Except.error what) →
    ∃ r, (Session.connect (Except.ok engine)).eval statement output error = Except.ok r ∧
      r.output = "" ∧ r.error = ""

/-- Loop invariant of the matrix decoder on an `R` x `C` array: every coefficient before
position `(i0, j0)` in loop order already holds the element of `a`. -/
def DecodeInv {α : Type} (o : StorageOrder) (a : MArray α) (R C i0 j0 : Nat)
    (ret : Matrix α) : Prop :=
  ret.rows = R ∧ ret.cols = C ∧ ret.data.length = R * C ∧
  ∀ i j, i < R → j < C → (i < i0 ∨ (i = i0 ∧ j < j0)) →
    ret.data[ret.index o i j]? = a.buf[i + j * R]?

/-- Loop invariant of the vector decoder: the first `k` coefficients hold the first `k`
elements of `a`. -/
def VecInv {α : Type} (a : MArray α) (n k : Nat) (v : Vector α) : Prop :=
  v.data.length = n ∧ ∀ i, i < k → v.data[i]? = a.buf[i]?

/-! ## Sample values -/

/-- A batch of two distinct 1 x 1 matrices. -/
def sampleBatch : List (Matrix Nat) := [⟨1, 1, [1]⟩, ⟨1, 1, [2]⟩]

/-- An array with a single dimension. -/
def sampleRank1 : MArray Nat := ⟨[3], [1, 2, 3]⟩

/-- A row array of shape 1 x 3. -/
def sampleRow : MArray Nat := ⟨[1, 3], [4, 5, 6]⟩

/-- A column array with `2 ^ 32 + 1` rows. -/
def sampleHuge : MArray Nat := ⟨[2 ^ 32 + 1, 1], List.replicate (2 ^ 32 + 1) 0⟩

/-- An engine whose `eval` always faults. -/
def faultyEngine : MATLABEngine := ⟨fun _ => Except.error "transport fault"⟩


/-- A 2 x 2 matrix with storage `1, 2, 3, 4`. -/
def sampleSquare : Matrix Nat := ⟨2, 2, [1, 2, 3, 4]⟩

/-- A 2 x 3 matrix with storage `1, 2, 3, 4, 5, 6`. -/
def sampleWide : Matrix Nat := ⟨2, 3, [1, 2, 3, 4, 5, 6]⟩

/-- A column matrix with `2 ^ 32` rows. -/
def sampleTall : Matrix Nat := ⟨2 ^ 32, 1, List.replicate (2 ^ 32) 0⟩

/-- A vector of length 3. -/
def sampleVector : Vector Nat := ⟨[7, 8, 9]⟩

/-- A vector of length `2 ^ 32`. -/
def sampleLongVector : Vector Nat := ⟨List.replicate (2 ^ 32) 0⟩

/-! ## Auxiliary facts -/

theorem castUInt_of_lt {n : Nat} (h : n < 2 ^ 32) : castUInt n = n :=
  Nat.mod_eq_of_lt h

theorem castUInt_pow : castUInt (2 ^ 32) = 0 := by
  unfold castUInt
  exact Nat.mod_self _

theorem castUInt_pow_succ : castUInt (2 ^ 32 + 1) = 1 := by
  unfold castUInt
  rw [Nat.add_mod_left]
  rfl

theorem except_ok_bind {ε β γ : Type} (x : β) (f : β → Except ε γ) :
    (Except.ok x >>= f) = f x := rfl

theorem createArray_exact {α : Type} [Inhabited α] (dims : List Nat) (range : List α)
    (h : range.length = dims.prod) : createArray dims range = ⟨dims, range⟩ := by
  unfold createArray
  rw [← h]
  simp

theorem index_lt {a b n m : Nat} (ha : a < n) (hb : b < m) : a + b * n < n * m := by
  have h1 : (b + 1) * n ≤ m * n := Nat.mul_le_mul_right n hb
  have h2 : (b + 1) * n = b * n + n := by ring
  have h3 : m * n = n * m := Nat.mul_comm m n
  omega

theorem index_inj {a b a' b' n : Nat} (ha : a < n) (ha' : a' < n)
    (h : a + b * n = a' + b' * n) : a = a' ∧ b = b' := by
  have hm : (a + b * n) % n = (a' + b' * n) % n := by rw [h]
  rw [Nat.add_mul_mod_self_right, Nat.add_mul_mod_self_right,
    Nat.mod_eq_of_lt ha, Nat.mod_eq_of_lt ha'] at hm
  subst hm
  have hn : 0 < n := by omega
  have h4 : b * n = b' * n := by omega
  exact ⟨rfl, Nat.eq_of_mul_eq_mul_right hn h4⟩

theorem matrix_index_lt {α : Type} (o : StorageOrder) (m : Matrix α) {i j : Nat}
    (hi : i < m.rows) (hj : j < m.cols) : m.index o i j < m.rows * m.cols := by
  cases o
  · exact index_lt hi hj
  · have := index_lt hj hi
    simp only [Matrix.index]
    rw [Nat.mul_comm m.rows m.cols]
    omega

theorem matrix_index_inj {α : Type} (o : StorageOrder) (m : Matrix α) {i j i' j' : Nat}
    (hi : i < m.rows) (hj : j < m.cols) (hi' : i' < m.rows) (hj' : j' < m.cols)
    (h : m.index o i j = m.index o i' j') : i = i' ∧ j = j' := by
  cases o
  · exact index_inj hi hi' h
  · simp only [Matrix.index] at h
    have h2 : j + i * m.cols = j' + i' * m.cols := by omega
    have := index_inj hj hj' h2
    exact ⟨this.2, this.1⟩

/-! ## Encoding -/

theorem toMatlab_dims {α : Type} [Inhabited α] (rows cols : Nat) (data : List α) :
    (toMatlab rows cols data).dims = [castUInt rows, castUInt cols] := rfl

theorem toMatlabMatrix_exact {α : Type} [Inhabited α] (M : Matrix α) (hwf : M.WellFormed)
    (hr : M.rows < 2 ^ 32) (hc : M.cols < 2 ^ 32) :
    toMatlabMatrix M = ⟨[M.rows, M.cols], M.data⟩ := by
  unfold toMatlabMatrix toMatlab
  rw [castUInt_of_lt hr, castUInt_of_lt hc]
  apply createArray_exact
  simpa [Matrix.WellFormed] using hwf

theorem toMatlabVector_exact {α : Type} [Inhabited α] (v : Vector α)
    (hn : v.data.length < 2 ^ 32) :
    toMatlabVector v = ⟨[v.data.length, 1], v.data⟩ := by
  unfold toMatlabVector toMatlab Vector.rows Vector.cols
  rw [castUInt_of_lt hn, castUInt_of_lt (by decide : 1 < 2 ^ 32)]
  apply createArray_exact
  simp

theorem sampleTall_wf : sampleTall.WellFormed := by
  unfold Matrix.WellFormed sampleTall
  rw [List.length_replicate, Nat.mul_one]

theorem sampleTall_dims : (toMatlabMatrix sampleTall).dims = [0, 1] := by
  unfold toMatlabMatrix
  rw [toMatlab_dims]
  show [castUInt (2 ^ 32), castUInt 1] = [0, 1]
  rw [castUInt_pow]
  rfl

theorem sampleLongVector_dims : (toMatlabVector sampleLongVector).dims = [0, 1] := by
  unfold toMatlabVector
  rw [toMatlab_dims]
  show [castUInt (List.replicate (2 ^ 32) 0).length, castUInt 1] = [0, 1]
  rw [List.length_replicate, castUInt_pow]
  rfl

theorem sampleHuge_wf : sampleHuge.WellFormed := by
  unfold MArray.WellFormed sampleHuge
  rw [List.length_replicate]
  simp only [List.prod_cons, List.prod_nil, Nat.mul_one]

theorem toMatlabBatch_eq_map {α T : Type} (enc : T → MArray α) (vt : List T) :
    toMatlabBatch enc vt = vt.map enc := by
  have h : ∀ (l : List T) (acc : List (MArray α)),
      l.foldl (fun ret t => ret ++ [enc t]) acc = acc ++ l.map enc := by
    intro l
    induction l with
    | nil => intro acc; simp
    | cons t l ih => intro acc; simp [ih]
  simpa [toMatlabBatch] using h vt []

/-! ## The matrix decoder -/

theorem at2_ok {α : Type} (a : MArray α) {R C i j : Nat} (hd : a.dims = [R, C])
    (hwf : a.WellFormed) (hi : i < R) (hj : j < C) :
    ∃ x, a.at2 i j = Except.ok x ∧ a.buf[i + j * R]? = some x := by
  have hlen : a.buf.length = R * C := by simpa [MArray.WellFormed, hd] using hwf
  have hlt : i + j * R < a.buf.length := by rw [hlen]; exact index_lt hi hj
  refine ⟨a.buf[i + j * R], ?_, List.getElem?_eq_getElem hlt⟩
  simp [MArray.at2, hd, hi, hj, List.getElem?_eq_getElem hlt]

theorem decodeInv_step {α : Type} (o : StorageOrder) (a : MArray α) {R C i0 j0 : Nat}
    {ret : Matrix α} {x : α} (hinv : DecodeInv o a R C i0 j0 ret) (hi0 : i0 < R)
    (hj0 : j0 < C) (hx : a.buf[i0 + j0 * R]? = some x) :
    DecodeInv o a R C i0 (j0 + 1) (ret.set o i0 j0 x) := by
  obtain ⟨hr, hc, hl, hall⟩ := hinv
  refine ⟨hr, hc, by simpa [Matrix.set] using hl, ?_⟩
  intro i j hi hj hdone
  have hidx : (ret.set o i0 j0 x).index o i j = ret.index o i j := by
    cases o <;> rfl
  rw [hidx]
  simp only [Matrix.set]
  by_cases heq : i = i0 ∧ j = j0
  · obtain ⟨rfl, rfl⟩ := heq
    have hlt : ret.index o i j < ret.data.length := by
      rw [hl, ← hr, ← hc]; exact matrix_index_lt o ret (hr ▸ hi) (hc ▸ hj)
    rw [List.getElem?_set_self hlt, hx]
  · have hne : ret.index o i0 j0 ≠ ret.index o i j := by
      intro h
      have := matrix_index_inj o ret (hr ▸ hi0) (hc ▸ hj0) (hr ▸ hi) (hc ▸ hj) h
      exact heq ⟨this.1.symm, this.2.symm⟩
    rw [List.getElem?_set_ne hne]
    apply hall i j hi hj
    rcases hdone with h | ⟨h1, h2⟩
    · exact Or.inl h
    · refine Or.inr ⟨h1, ?_⟩
      have : j ≠ j0 := fun h => heq ⟨h1, h⟩
      omega

theorem fillRow_ok {α : Type} (o : StorageOrder) (a : MArray α) {R C i0 : Nat}
    (hd : a.dims = [R, C]) (hwf : a.WellFormed) (hi0 : i0 < R) (n : Nat) (hn : n ≤ C)
    (ret : Matrix α) (hinv : DecodeInv o a R C i0 0 ret) :
    ∃ ret', fillRow o a n i0 ret = Except.ok ret' ∧ DecodeInv o a R C i0 n ret' := by
  induction n with
  | zero => exact ⟨ret, rfl, hinv⟩
  | succ n ih =>
    obtain ⟨r1, h1, hinv1⟩ := ih (by omega)
    obtain ⟨x, hx, hbuf⟩ := at2_ok a hd hwf hi0 (show n < C by omega)
    refine ⟨r1.set o i0 n x, ?_, decodeInv_step o a hinv1 hi0 (by omega) hbuf⟩
    unfold fillRow at h1 ⊢
    rw [List.range_succ, List.foldlM_append, h1, except_ok_bind]
    simp [hx]

theorem decodeInv_next_row {α : Type} (o : StorageOrder) (a : MArray α) {R C i0 : Nat}
    {ret : Matrix α} (hinv : DecodeInv o a R C i0 C ret) :
    DecodeInv o a R C (i0 + 1) 0 ret := by
  obtain ⟨hr, hc, hl, hall⟩ := hinv
  refine ⟨hr, hc, hl, ?_⟩
  intro i j hi hj hdone
  apply hall i j hi hj
  rcases hdone with h | ⟨_, h2⟩
  · by_cases h' : i = i0
    · exact Or.inr ⟨h', hj⟩
    · exact Or.inl (by omega)
  · omega

theorem fillRows_ok {α : Type} (o : StorageOrder) (a : MArray α) {R C : Nat}
    (hd : a.dims = [R, C]) (hwf : a.WellFormed) (m : Nat) (hm : m ≤ R)
    (ret : Matrix α) (hinv : DecodeInv o a R C 0 0 ret) :
    ∃ ret', (List.range m).foldlM (fun ret i => fillRow o a C i ret) ret = Except.ok ret' ∧
      DecodeInv o a R C m 0 ret' := by
  induction m with
  | zero => exact ⟨ret, rfl, hinv⟩
  | succ m ih =>
    obtain ⟨r1, h1, hinv1⟩ := ih (by omega)
    obtain ⟨r2, h2, hinv2⟩ := fillRow_ok o a hd hwf (show m < R by omega) C le_rfl r1 hinv1
    refine ⟨r2, ?_, decodeInv_next_row o a hinv2⟩
    rw [List.range_succ, List.foldlM_append, h1, except_ok_bind]
    simp [h2]

theorem toEigenMatrix_ok {α : Type} [Inhabited α] (o : StorageOrder) (a : MArray α)
    {R C : Nat} (hd : a.dims = [R, C]) (hwf : a.WellFormed)
    (hR : 0 < R) (hC : 0 < C) (hR32 : R < 2 ^ 32) (hC32 : C < 2 ^ 32) :
    ∃ ret, toEigenMatrix o a = Except.ok ret ∧ ret.rows = R ∧ ret.cols = C ∧
      ∀ i j, i < R → j < C → ret.coeff o i j = a.buf[i + j * R]? := by
  have hinv0 : DecodeInv o a R C 0 0 ((Matrix.empty : Matrix α).resize R C) := by
    refine ⟨rfl, rfl, by simp [Matrix.resize], ?_⟩
    intro i j _ _ h
    omega
  obtain ⟨ret, hret, hr, hc, _, hall⟩ := fillRows_ok o a hd hwf R le_rfl _ hinv0
  refine ⟨ret, ?_, hr, hc, ?_⟩
  · have hR0 : R ≠ 0 := by omega
    have hC0 : C ≠ 0 := by omega
    simp [toEigenMatrix, MArray.getDim, hd, castUInt_of_lt hR32, castUInt_of_lt hC32, hR0, hC0,
      hret]
  · intro i j hi hj
    simp only [Matrix.coeff, hr, hc, hi, hj, and_self, if_true]
    exact hall i j hi hj (Or.inl hi)

theorem toEigenMatrix_zero_rows {α : Type} [Inhabited α] (o : StorageOrder) (a : MArray α)
    (c : Nat) (hd : a.dims = [0, c]) : toEigenMatrix o a = Except.ok Matrix.empty := by
  simp [toEigenMatrix, MArray.getDim, hd, castUInt]

theorem sampleSquare_rowMajor_decoded :
    toEigenMatrix StorageOrder.RowMajor (toMatlabMatrix sampleSquare)
      = Except.ok ⟨2, 2, [1, 3, 2, 4]⟩ := by decide

/-! ## The vector decoder -/

theorem vecLoop_ok {α : Type} (a : MArray α) (n : Nat) (hn : n ≤ a.buf.length)
    (v0 : Vector α) (h0 : v0.data.length = n) (k : Nat) (hk : k ≤ n) :
    ∃ v, (List.range k).foldlM
        (fun ret i =>
          match a.at1 i with
          | Except.ok x => Except.ok (ret.set i x)
          | Except.error e => Except.error e) v0 = Except.ok v ∧ VecInv a n k v := by
  induction k with
  | zero => exact ⟨v0, rfl, h0, fun i hi => absurd hi (Nat.not_lt_zero i)⟩
  | succ k ih =>
    obtain ⟨v1, h1, hlen, hall⟩ := ih (by omega)
    have hlt : k < a.buf.length := by omega
    have hat : a.at1 k = Except.ok a.buf[k] := by
      simp [MArray.at1, List.getElem?_eq_getElem hlt]
    refine ⟨v1.set k a.buf[k], ?_, by simpa [Vector.set] using hlen, ?_⟩
    · rw [List.range_succ, List.foldlM_append, h1, except_ok_bind]
      simp [hat]
    · intro i hi
      simp only [Vector.set]
      by_cases hik : i = k
      · subst hik
        rw [List.getElem?_set_self (by omega), List.getElem?_eq_getElem hlt]
      · rw [List.getElem?_set_ne (fun h => hik h.symm)]
        exact hall i (by omega)

theorem toEigenVector_take {α : Type} [Inhabited α] (a : MArray α) (d0 d1 : Nat)
    (hd : a.dims = [d0, d1]) (hmin : min (castUInt d0) (castUInt d1) = 1)
    (hn : castUInt (d0 * d1) ≤ a.buf.length) :
    toEigenVector a = Except.ok ⟨a.buf.take (castUInt (d0 * d1))⟩ := by
  obtain ⟨v, hv, hlen, hall⟩ := vecLoop_ok a (castUInt (d0 * d1)) hn
    ((Vector.empty : Vector α).resize (castUInt (d0 * d1))) (by simp [Vector.resize])
    (castUInt (d0 * d1)) le_rfl
  have hdata : v.data = a.buf.take (castUInt (d0 * d1)) := by
    apply List.ext_getElem?
    intro i
    by_cases hi : i < castUInt (d0 * d1)
    · rw [hall i hi, List.getElem?_take_of_lt hi]
    · rw [List.getElem?_eq_none (by omega), List.getElem?_eq_none]
      rw [List.length_take]
      omega
  have hv' : v = ⟨a.buf.take (castUInt (d0 * d1))⟩ := by
    cases v
    simpa using hdata
  rw [← hv']
  simp [toEigenVector, MArray.getDim, MArray.getNumberOfElements, hd, hmin, hv]

theorem toEigenVector_empty {α : Type} [Inhabited α] (a : MArray α) {d0 d1 : Nat}
    {rest : List Nat} (hd : a.dims = d0 :: d1 :: rest)
    (h : rest ≠ [] ∨ min (castUInt d0) (castUInt d1) ≠ 1) :
    toEigenVector a = Except.ok Vector.empty := by
  rcases h with h | h
  · have : rest.length ≠ 0 := fun h0 => h (List.length_eq_zero.mp h0)
    simp [toEigenVector, MArray.getDim, hd, this]
  · simp [toEigenVector, MArray.getDim, hd, h]

theorem toEigenVector_spec {α : Type} [Inhabited α] (a : MArray α) (d0 d1 : Nat)
    (rest : List Nat) (hd : a.dims = d0 :: d1 :: rest) (hwf : a.WellFormed)
    (h0 : d0 < 2 ^ 32) (h1 : d1 < 2 ^ 32) : VectorDecodeSpec a := by
  unfold VectorDecodeSpec
  by_cases hshape : isVectorShape a.dims = true
  · rw [if_pos hshape]
    rw [hd] at hshape
    cases rest with
    | cons r rs => simp [isVectorShape] at hshape
    | nil =>
      simp only [isVectorShape, Bool.and_eq_true, beq_iff_eq, bne_iff_ne] at hshape
      obtain ⟨⟨hmin, _⟩, _⟩ := hshape
      have hprod : d0 * d1 < 2 ^ 32 := by
        rcases Nat.le_total d0 d1 with hle | hle
        · rw [Nat.min_eq_left hle] at hmin; subst hmin; omega
        · rw [Nat.min_eq_right hle] at hmin; subst hmin; omega
      have hlen : a.buf.length = d0 * d1 := by simpa [MArray.WellFormed, hd] using hwf
      rw [toEigenVector_take a d0 d1 hd (by rw [castUInt_of_lt h0, castUInt_of_lt h1]; exact hmin)
        (by rw [castUInt_of_lt hprod, hlen]), castUInt_of_lt hprod, ← hlen, List.take_length]
  · rw [if_neg hshape]
    apply toEigenVector_empty a hd
    rw [castUInt_of_lt h0, castUInt_of_lt h1]
    by_contra hcon
    push_neg at hcon
    obtain ⟨hrest, hmin⟩ := hcon
    apply hshape
    rw [hd, hrest]
    have hd0 : d0 ≠ 0 := by intro h; rw [h] at hmin; simp at hmin
    have hd1 : d1 ≠ 0 := by intro h; rw [h] at hmin; simp at hmin
    simp [isVectorShape, hmin, hd0, hd1]

/-! ## The statement built by `save` -/

theorem save_foldl_acc (vars : List String) (acc : String) :
    vars.foldl (fun varStr v => varStr ++ (", '" ++ v ++ "'")) acc
      = acc ++ vars.foldl (fun varStr v => varStr ++ (", '" ++ v ++ "'")) "" := by
  induction vars generalizing acc with
  | nil => simp
  | cons v vs ih =>
    rw [List.foldl_cons, List.foldl_cons, ih (acc ++ (", '" ++ v ++ "'")),
      ih ("" ++ (", '" ++ v ++ "'")), String.empty_append, String.append_assoc]

theorem intercalate_go_quoted (vars : List String) (acc : String) :
    String.intercalate.go acc ", " (vars.map (fun name => "'" ++ name ++ "'"))
      = acc ++ vars.foldl (fun varStr v => varStr ++ (", '" ++ v ++ "'")) "" := by
  induction vars generalizing acc with
  | nil => simp [String.intercalate.go]
  | cons v vs ih =>
    have hq : (", " : String) ++ "'" = ", '" := by decide
    have hstep : (v :: vs).foldl (fun varStr v => varStr ++ (", '" ++ v ++ "'")) ""
        = (", '" ++ v ++ "'") ++ vs.foldl (fun varStr v => varStr ++ (", '" ++ v ++ "'")) "" := by
      rw [List.foldl_cons, save_foldl_acc vs ("" ++ (", '" ++ v ++ "'")), String.empty_append]
    rw [List.map_cons, String.intercalate.go, ih, hstep]
    generalize vs.foldl (fun varStr v => varStr ++ (", '" ++ v ++ "'")) "" = tail
    simp only [String.append_assoc]
    rw [← String.append_assoc ", " "'", hq]

theorem saveStatement_eq_spec (file : String) (vars : List String) :
    saveStatement file vars = specSaveStatement file vars := by
  have hq : ("save(" : String) ++ "'" = "save('" := by decide
  unfold saveStatement specSaveStatement
  rw [List.map_cons, String.intercalate, intercalate_go_quoted]
  generalize vars.foldl (fun varStr v => varStr ++ (", '" ++ v ++ "'")) "" = tail
  simp only [String.append_assoc]
  rw [← String.append_assoc "save(" "'", hq]

/-! ## Further facts about the decoders and the session -/

theorem toEigenMatrix_empty_of_rank_ge_two {α : Type} [Inhabited α] (o : StorageOrder)
    (a : MArray α) (d0 d1 : Nat) (rest : List Nat) (hd : a.dims = d0 :: d1 :: rest)
    (h : rest ≠ [] ∨ d0 = 0 ∨ d1 = 0) : toEigenMatrix o a = Except.ok Matrix.empty := by
  rcases h with h | h | h
  · have : rest.length ≠ 0 := fun h0 => h (List.length_eq_zero.mp h0)
    simp [toEigenMatrix, MArray.getDim, hd, this]
  · simp [toEigenMatrix, MArray.getDim, hd, h, castUInt]
  · simp [toEigenMatrix, MArray.getDim, hd, h, castUInt]

theorem toEigenScalar_of_nonempty {α : Type} (quiet_NaN : α) (a : MArray α) (d0 : Nat)
    (rest : List Nat) (x : α) (xs : List α) (hd : a.dims = d0 :: rest) (hb : a.buf = x :: xs) :
    toEigenScalar quiet_NaN a
      = Except.ok (if a.dims.length ≤ 2 ∧ d0 = 1 then x else quiet_NaN) := by
  have hlength : a.dims.length = rest.length + 1 := by rw [hd]; rfl
  by_cases hlen : a.dims.length ≤ 2
  · have hlen' : ¬ (a.dims.length > 2) := by omega
    have hget : a.getDim 0 = Except.ok d0 := by simp [MArray.getDim, hd]
    by_cases h1 : d0 = 1
    · have hat : a.at1 0 = Except.ok x := by simp [MArray.at1, hb]
      unfold toEigenScalar
      rw [if_neg hlen', hget, if_pos ⟨hlen, h1⟩]
      simp [h1, hat]
    · unfold toEigenScalar
      rw [if_neg hlen', hget, if_neg (fun h => h1 h.2)]
      simp [h1]
  · have hlen' : a.dims.length > 2 := by omega
    unfold toEigenScalar
    rw [if_pos hlen', if_neg (fun h => hlen h.1)]

theorem toEigenBatch_eq_map {α T : Type} (conv : MArray α → T) (va : List (MArray α)) :
    toEigenBatch conv va = va.map (fun _ => conv MArray.empty) := by
  have h : ∀ (l : List (MArray α)) (acc : List T),
      l.foldl (fun ret a => ret ++ [conv (toEigenDefault (MArray α) a)]) acc
        = acc ++ l.map (fun _ => conv MArray.empty) := by
    intro l
    induction l with
    | nil => intro acc; simp
    | cons t l ih =>
      intro acc
      rw [List.foldl_cons, ih, List.map_cons, List.append_assoc]
      rfl
  unfold toEigenBatch
  rw [h va [], List.nil_append]

theorem eval_caught (engine : MATLABEngine) (statement output error what : String)
    (h : engine.eval statement = Except.error what) :
    (Session.connect (Except.ok engine)).eval statement output error
      = Except.ok ⟨output, error, ["Matlab syntax error.", what]⟩ := by
  simp [Session.connect, Session.eval, h]

/-! ## The claims -/

/-- C1 (amended): for every matrix `M` of a column-major matrix type, of shape (r, c) with
`1 ≤ r < 2 ^ 32` and `1 ≤ c < 2 ^ 32`, `toEigen<Matrix>(toMatlab(M))` returns a matrix of
shape (r, c) whose element (i, j) equals `M(i, j)` for all `i < r`, `j < c`. -/
theorem matrix_roundtrip_colMajor {α : Type} [Inhabited α] (M : Matrix α)
    (hwf : M.WellFormed) (hr : 1 ≤ M.rows) (hc : 1 ≤ M.cols)
    (hr32 : M.rows < 2 ^ 32) (hc32 : M.cols < 2 ^ 32) :
    MatrixRoundTrips StorageOrder.ColMajor M := by
  have henc := toMatlabMatrix_exact M hwf hr32 hc32
  have hawf : (toMatlabMatrix M).WellFormed := by
    rw [henc]; simpa [MArray.WellFormed, Matrix.WellFormed] using hwf
  have hd : (toMatlabMatrix M).dims = [M.rows, M.cols] := by rw [henc]
  obtain ⟨ret, hret, hrr, hrc, hall⟩ :=
    toEigenMatrix_ok StorageOrder.ColMajor (toMatlabMatrix M) hd hawf hr hc hr32 hc32
  refine ⟨ret, hret, hrr, hrc, ?_⟩
  intro i j hi hj
  have hlt : i + j * M.rows < M.data.length := by
    rw [hwf]; exact index_lt hi hj
  refine ⟨M.data[i + j * M.rows], ?_, ?_⟩
  · simp [Matrix.coeff, Matrix.index, hi, hj, List.getElem?_eq_getElem hlt]
  · rw [hall i j hi hj, henc]
    exact List.getElem?_eq_getElem hlt

/-- Witness of C1 (amended) on the 2 x 3 sample matrix. -/
theorem matrix_roundtrip_colMajor_witness :
    sampleWide.WellFormed ∧ 1 ≤ sampleWide.rows ∧ 1 ≤ sampleWide.cols ∧
    sampleWide.rows < 2 ^ 32 ∧ sampleWide.cols < 2 ^ 32 ∧
    MatrixRoundTrips StorageOrder.ColMajor sampleWide :=
  ⟨by decide, by decide, by decide, by decide, by decide,
    matrix_roundtrip_colMajor sampleWide (by decide) (by decide) (by decide) (by decide)
      (by decide)⟩

/-- C1 fails as stated: with a row-major matrix type the round trip of the 2 x 2 matrix with
storage `1, 2, 3, 4` returns element (0, 1) = 3 instead of 2, and the round trip of a
well-formed column-major matrix with `2 ^ 32` rows returns the empty matrix. -/
theorem matrix_roundtrip_counterexample :
    ¬ MatrixRoundTrips StorageOrder.RowMajor sampleSquare ∧
    (sampleTall.WellFormed ∧ ¬ MatrixRoundTrips StorageOrder.ColMajor sampleTall) := by
  refine ⟨?_, sampleTall_wf, ?_⟩
  · rintro ⟨ret, hret, -, -, hall⟩
    rw [sampleSquare_rowMajor_decoded] at hret
    cases hret
    obtain ⟨x, h1, h2⟩ := hall 0 1 (by decide) (by decide)
    have h3 : (sampleSquare.coeff StorageOrder.RowMajor 0 1) = some 2 := by decide
    have h4 : (Matrix.coeff StorageOrder.RowMajor (⟨2, 2, [1, 3, 2, 4]⟩ : Matrix Nat) 0 1)
        = some 3 := by decide
    rw [h3] at h1
    rw [h4] at h2
    cases h1
    cases h2
  · rintro ⟨ret, hret, hrows, -, -⟩
    rw [toEigenMatrix_zero_rows _ _ 1 sampleTall_dims] at hret
    cases hret
    have h0 : (0 : Nat) = 2 ^ 32 := hrows
    omega

/-- C2 (amended): for every matrix `M` of a column-major matrix type with `r < 2 ^ 32` rows
and `c < 2 ^ 32` columns, `toMatlab(M)` has dimension list `[r, c]` and its buffer position
`i + j * r` holds `M(i, j)` for all `i < r`, `j < c`. -/
theorem toMatlab_matrix_layout {α : Type} [Inhabited α] (M : Matrix α) (hwf : M.WellFormed)
    (hr32 : M.rows < 2 ^ 32) (hc32 : M.cols < 2 ^ 32) :
    EncodesColumnMajor StorageOrder.ColMajor M := by
  have henc := toMatlabMatrix_exact M hwf hr32 hc32
  refine ⟨by rw [henc], ?_⟩
  intro i j hi hj
  have hlt : i + j * M.rows < M.data.length := by
    rw [hwf]; exact index_lt hi hj
  refine ⟨M.data[i + j * M.rows], ?_, ?_⟩
  · simp [Matrix.coeff, Matrix.index, hi, hj, List.getElem?_eq_getElem hlt]
  · rw [henc]
    exact List.getElem?_eq_getElem hlt

/-- Witness of C2 (amended) on the 2 x 3 sample matrix. -/
theorem toMatlab_matrix_layout_witness :
    sampleWide.WellFormed ∧ sampleWide.rows < 2 ^ 32 ∧ sampleWide.cols < 2 ^ 32 ∧
    EncodesColumnMajor StorageOrder.ColMajor sampleWide :=
  ⟨by decide, by decide, by decide,
    toMatlab_matrix_layout sampleWide (by decide) (by decide) (by decide)⟩

/-- C2 fails as stated: for the row-major 2 x 2 matrix with storage `1, 2, 3, 4` buffer
position `0 + 1 * 2` holds 3 while `M(0, 1)` is 2, and for a well-formed matrix with
`2 ^ 32` rows the dimension list is `[0, 1]`. -/
theorem toMatlab_matrix_layout_counterexample :
    ¬ EncodesColumnMajor StorageOrder.RowMajor sampleSquare ∧
    (sampleTall.WellFormed ∧ ¬ EncodesColumnMajor StorageOrder.ColMajor sampleTall) := by
  refine ⟨?_, sampleTall_wf, ?_⟩
  · rintro ⟨-, hall⟩
    obtain ⟨x, h1, h2⟩ := hall 0 1 (by decide) (by decide)
    have h3 : (sampleSquare.coeff StorageOrder.RowMajor 0 1) = some 2 := by decide
    have h4 : (toMatlabMatrix sampleSquare).buf[0 + 1 * sampleSquare.rows]? = some 3 := by
      decide
    rw [h3] at h1
    rw [h4] at h2
    cases h1
    cases h2
  · rintro ⟨hdims, -⟩
    rw [sampleTall_dims] at hdims
    have h0 : (0 : Nat) = 2 ^ 32 := (List.cons.inj hdims).1
    omega

/-- C3 (the code at the failing input): whatever conversion from the engine array to the
target type is used, the batch form of `toEigen` applied to the encoded batch of the two
distinct 1 x 1 matrices converts the default-constructed array twice; its result does not
depend on the arrays it was given and differs from the batch. -/
theorem toEigenBatch_discards_input (conv : MArray Nat → Matrix Nat) :
    toEigenBatch conv (toMatlabBatch toMatlabMatrix sampleBatch)
      = [conv MArray.empty, conv MArray.empty] ∧
    toEigenBatch conv (toMatlabBatch toMatlabMatrix sampleBatch) ≠ sampleBatch := by
  have h : toEigenBatch conv (toMatlabBatch toMatlabMatrix sampleBatch)
      = [conv MArray.empty, conv MArray.empty] := by
    rw [toEigenBatch_eq_map, toMatlabBatch_eq_map]
    rfl
  refine ⟨h, ?_⟩
  rw [h]
  intro heq
  have h1 : conv MArray.empty = ⟨1, 1, [1]⟩ := (List.cons.inj heq).1
  have h2 : conv MArray.empty = ⟨1, 1, [2]⟩ := (List.cons.inj (List.cons.inj heq).2).1
  rw [h1] at h2
  exact absurd h2 (by decide)

/-- C4 (amended): for every vector `v` of length `n < 2 ^ 32` (in particular `1 ≤ n`),
`toMatlab(v)` is the array with dimension list `[n, 1]` holding the elements of `v` in
source order, and `toEigen<Vector>(toMatlab(v))` returns `v`. -/
theorem vector_roundtrip {α : Type} [Inhabited α] (v : Vector α)
    (hn : v.data.length < 2 ^ 32) : VectorRoundTrips v := by
  have henc := toMatlabVector_exact v hn
  refine ⟨henc, ?_⟩
  have hspec := toEigenVector_spec (toMatlabVector v) v.data.length 1 []
    (by rw [henc]) (by rw [henc]; simp [MArray.WellFormed]) hn (by decide)
  unfold VectorDecodeSpec at hspec
  rw [hspec, henc]
  cases v with
  | mk data =>
    cases data with
    | nil => simp [isVectorShape, Vector.empty]
    | cons x xs => simp [isVectorShape]

/-- Witness of C4 (amended) on the sample vector of length 3. -/
theorem vector_roundtrip_witness :
    sampleVector.data.length < 2 ^ 32 ∧ VectorRoundTrips sampleVector :=
  ⟨by decide, vector_roundtrip sampleVector (by decide)⟩

/-- C4 fails as stated: for a vector of length `2 ^ 32` the dimension list of `toMatlab(v)`
is `[0, 1]`, not `[2 ^ 32, 1]`. -/
theorem vector_roundtrip_counterexample : ¬ VectorRoundTrips sampleLongVector := by
  rintro ⟨henc, -⟩
  have hd := congrArg MArray.dims henc
  rw [sampleLongVector_dims] at hd
  have h0 : (0 : Nat) = (List.replicate (2 ^ 32) 0).length := (List.cons.inj hd).1
  rw [List.length_replicate] at h0
  omega

/-- C5 (the code at the failing input): on an array whose dimension list has no entry or
one entry, `toEigen<Matrix>` reads `getDimensions()[0]` and `getDimensions()[1]` before it
tests the rank, which is a read past the end of the dimension list. -/
theorem toEigenMatrix_low_rank_faults {α : Type} [Inhabited α] (o : StorageOrder) (d : Nat)
    (buf : List α) :
    toEigenMatrix o ⟨[], buf⟩ = Except.error Fault.dimsOutOfRange ∧
    toEigenMatrix o ⟨[d], buf⟩ = Except.error Fault.dimsOutOfRange :=
  ⟨rfl, rfl⟩

/-- C6 (amended): for every array `a` with at least 2 dimensions, the first two below
`2 ^ 32`, and a buffer as long as the product of the dimensions, `toEigen<Vector>(a)` is the
vector of all elements of `a` in buffer order when `a` has exactly 2 dimensions, the smaller
equal to 1 and neither 0, and the empty vector otherwise. -/
theorem toEigenVector_decodes {α : Type} [Inhabited α] (a : MArray α) (d0 d1 : Nat)
    (rest : List Nat) (hd : a.dims = d0 :: d1 :: rest) (hwf : a.WellFormed)
    (h0 : d0 < 2 ^ 32) (h1 : d1 < 2 ^ 32) : VectorDecodeSpec a :=
  toEigenVector_spec a d0 d1 rest hd hwf h0 h1

/-- Witness of C6 (amended) on the 1 x 3 sample array. -/
theorem toEigenVector_decodes_witness :
    sampleRow.dims = [1, 3] ∧ sampleRow.WellFormed ∧ 1 < 2 ^ 32 ∧ 3 < 2 ^ 32 ∧
    VectorDecodeSpec sampleRow :=
  ⟨rfl, by decide, by decide, by decide,
    toEigenVector_decodes sampleRow 1 3 [] rfl (by decide) (by decide) (by decide)⟩

/-- C6 fails as stated: on the array with the single dimension 3 the decoder reads past the
end of the dimension list, and on a well-formed array of shape `(2 ^ 32 + 1)` x 1 it returns
a vector of length 1 instead of all `2 ^ 32 + 1` elements. -/
theorem toEigenVector_counterexample :
    ¬ VectorDecodeSpec sampleRank1 ∧
    (sampleHuge.WellFormed ∧ ¬ VectorDecodeSpec sampleHuge) := by
  refine ⟨by decide, sampleHuge_wf, ?_⟩
  intro h
  unfold VectorDecodeSpec at h
  have hshape : isVectorShape sampleHuge.dims = true := by
    show isVectorShape [2 ^ 32 + 1, 1] = true
    simp [isVectorShape]
  rw [if_pos hshape] at h
  have hdec := toEigenVector_take sampleHuge (2 ^ 32 + 1) 1 rfl
    (by rw [castUInt_pow_succ]; rfl)
    (by
      rw [Nat.mul_one, castUInt_pow_succ]
      show 1 ≤ (List.replicate (2 ^ 32 + 1) 0).length
      rw [List.length_replicate]
      omega)
  rw [hdec, Nat.mul_one, castUInt_pow_succ] at h
  have hlen := congrArg (fun r => match r with
    | Except.ok (v : Vector Nat) => v.data.length
    | Except.error _ => 0) h
  simp only at hlen
  have h2 : (List.take 1 sampleHuge.buf).length = 1 := by
    rw [List.length_take]
    show min 1 (List.replicate (2 ^ 32 + 1) 0).length = 1
    rw [List.length_replicate]
    omega
  have h3 : sampleHuge.buf.length = 2 ^ 32 + 1 := by
    show (List.replicate (2 ^ 32 + 1) 0).length = 2 ^ 32 + 1
    rw [List.length_replicate]
  rw [h2, h3] at hlen
  omega

/-- C7 (the code at the failing inputs): on the empty array of shape 1 x 0 the scalar
decoder passes its shape test and reads element 0 of an empty buffer, and on an array with
an empty dimension list it reads past the end of the dimension list; in both cases the call
faults instead of returning the not-a-number value. -/
theorem toEigenScalar_faults {α : Type} (quiet_NaN x : α) :
    toEigenScalar quiet_NaN ⟨[1, 0], []⟩ = Except.error Fault.invalidIndex ∧
    toEigenScalar quiet_NaN ⟨[], [x]⟩ = Except.error Fault.dimsOutOfRange :=
  ⟨rfl, rfl⟩

/-- C8 (the code at the failing input): on a session whose construction failed to connect,
`eval` calls through the null engine handle; the call does not complete. -/
theorem eval_null_handle (what statement output error : String) :
    (Session.connect (Except.error what)).eval statement output error
      = Except.error Fault.nullHandle :=
  rfl

/-- C9 (amended): for every connected session, every statement and every prior content of
the caller's output and error strings, if the engine's eval call faults then `eval` returns
normally, logs the fault and leaves both strings as they were before the call. -/
theorem eval_fault_keeps_strings (engine : MATLABEngine)
    (statement output error what : String)
    (h : engine.eval statement = Except.error what) :
    (Session.connect (Except.ok engine)).eval statement output error
      = Except.ok ⟨output, error, ["Matlab syntax error.", what]⟩ :=
  eval_caught engine statement output error what h

/-- Witness of C9 (amended) on the engine that always faults. -/
theorem eval_fault_keeps_strings_witness :
    faultyEngine.eval "1+1" = Except.error "transport fault" ∧
    (Session.connect (Except.ok faultyEngine)).eval "1+1" "stale" ""
      = Except.ok ⟨"stale", "", ["Matlab syntax error.", "transport fault"]⟩ :=
  ⟨rfl, eval_fault_keeps_strings faultyEngine "1+1" "stale" "" "transport fault" rfl⟩

/-- C9 fails as stated: when the caller's output string holds `stale` before the call and
the engine faults, the output string still holds `stale` afterwards. -/
theorem eval_fault_counterexample : ¬ EvalFaultClears faultyEngine "1+1" "stale" "" := by
  intro h
  obtain ⟨r, hr, hout, -⟩ := h ⟨"transport fault", rfl⟩
  rw [eval_caught faultyEngine "1+1" "stale" "" "transport fault" rfl] at hr
  cases hr
  exact absurd hout (by decide)

/-- C10: for every file name and every list of variable names, `save(file, vars)` evaluates
exactly the statement `save('f', 'v1', ..., 'vn')` with each name verbatim between single
quotes, in the given order and without escaping (a name containing a single quote is
inserted unchanged); for the empty list this is the statement that `save(file)` evaluates. -/
theorem save_statement (s : Session) (engine : MATLABEngine) (file : String)
    (vars : List String) :
    saveStatement file vars = specSaveStatement file vars ∧
    s.save file vars = s.eval1 (specSaveStatement file vars) ∧
    (Session.connect (Except.ok engine)).save file vars
      = Except.ok (match engine.eval (specSaveStatement file vars) with
        | Except.ok (out, err) => ⟨out, err, []⟩
        | Except.error what => ⟨"", "", ["Matlab syntax error.", what]⟩) ∧
    s.save file [] = s.save1 file ∧
    saveStatement "f" ["a", "b'c"] = "save('f', 'a', 'b'c')" := by
  refine ⟨saveStatement_eq_spec file vars, ?_, ?_, ?_, by decide⟩
  · unfold Session.save
    rw [saveStatement_eq_spec]
  · unfold Session.save Session.eval1 Session.eval Session.connect
    rw [saveStatement_eq_spec]
    rcases h : engine.eval (specSaveStatement file vars) with what | ⟨out, err⟩ <;> simp [h]
  · unfold Session.save Session.save1 saveStatement saveStatement1
    simp [String.append_assoc]

end Matlab
